import Mathlib

/- Shallow embedding of the execution-time library (Rust).

   Modelling conventions:
   * Rust `f64` values that arise from `Duration` arithmetic are modelled by
     exact rational numbers (`ℚ`).  A `Duration` is a pair of a whole-second
     count and a nanosecond count, so every value flowing through the
     decomposition is an exact multiple of `10⁻⁹`.
   * `f64::round` (round half away from zero) is modelled by `rustRound`.
   * The `%` operator on `f64` (IEEE `fmod`, remainder with truncated
     quotient) is modelled by `f64Mod`.
   * Rust's fixed-precision rendering `format!("{x:.k$}")` (round to nearest,
     ties to even, then print exactly `k` fractional digits) is modelled by
     `formatFixed`.
   * The monotonic clock read by `Instant::elapsed` is modelled by an explicit
     `now : ℚ` argument; `Instant::elapsed` saturates to zero when the clock
     reads earlier than the start instant. -/

namespace ExecTime

/-- Unit vocabulary, from src/traits/singular_plural.rs. -/
inductive Unit where
  | Second
  | Minute
  | Hour
  | Day
deriving DecidableEq

/-- English singular label of a unit (src/traits/singular_plural.rs). -/
def Unit.singular : Unit → String
  | .Second => "second"
  | .Minute => "minute"
  | .Hour => "hour"
  | .Day => "day"

/-- English plural label of a unit (src/traits/singular_plural.rs). -/
def Unit.plural : Unit → String
  | .Second => "seconds"
  | .Minute => "minutes"
  | .Hour => "hours"
  | .Day => "days"

/-- Model of Rust `f64::round`: round to the nearest integer, halves away
from zero. -/
def rustRound (q : ℚ) : ℤ :=
  if 0 ≤ q then ⌊q + 1 / 2⌋ else -⌊-q + 1 / 2⌋

/-- Model of the `f64` `%` operator (IEEE `fmod`): remainder after dividing
with a quotient truncated toward zero. -/
def f64Mod (x y : ℚ) : ℚ :=
  x - y * (if 0 ≤ x / y then (⌊x / y⌋ : ℚ) else (⌈x / y⌉ : ℚ))

/-- `RoundFloat::round_float` for `f64` (src/traits/round_float.rs):
round to `decimal` decimal places, with the `decimal <= 0 || self == 0.0`
fast path returning `self.round()`. -/
def round_float (x : ℚ) (decimal : ℤ) : ℚ :=
  if decimal ≤ 0 ∨ x = 0 then (rustRound x : ℚ)
  else (rustRound (x * 10 ^ decimal.toNat) : ℚ) / 10 ^ decimal.toNat

/-- `std::time::Duration`: whole seconds plus nanoseconds. -/
structure Duration where
  secs : ℕ
  nanos : ℕ
deriving DecidableEq

/-- `Duration::as_secs_f64`, exact-rational model. -/
def Duration.as_secs_f64 (d : Duration) : ℚ :=
  (d.secs : ℚ) + (d.nanos : ℚ) / 10 ^ 9

/-- The `Time` record (src/time.rs). -/
structure Time where
  days : ℕ
  hours : ℕ
  minutes : ℕ
  seconds : ℚ
deriving DecidableEq

/-- Constant from src/traits/duration_extension.rs. -/
def SECONDS_IN_DAY : ℚ := 86400

/-- Constant from src/traits/duration_extension.rs. -/
def SECONDS_IN_HOUR : ℚ := 3600

/-- Constant from src/traits/duration_extension.rs. -/
def SECONDS_IN_MINUTE : ℚ := 60

/-- `DurationExtension::get_time` (src/traits/duration_extension.rs). -/
def Duration.get_time (d : Duration) : Time :=
  let all_seconds : ℚ := d.as_secs_f64
  let remaining_day : ℚ := f64Mod all_seconds SECONDS_IN_DAY
  let remaining_hour : ℚ := f64Mod remaining_day SECONDS_IN_HOUR
  { days := (⌊all_seconds / SECONDS_IN_DAY⌋).toNat
    hours := (⌊remaining_day / SECONDS_IN_HOUR⌋).toNat
    minutes := (⌊remaining_hour / SECONDS_IN_MINUTE⌋).toNat
    seconds := round_float (f64Mod remaining_hour SECONDS_IN_MINUTE) 9 }

/-- `FormatIntegerValue::format_unit` (src/traits/format_value.rs),
instantiated at the unsigned integers used by `Time`. -/
def format_unit (n : ℕ) (unit : Unit) : String :=
  let label := if 2 ≤ n then unit.plural else unit.singular
  toString n ++ " " ++ label

/-- Round to the nearest integer, ties to even: the rounding used by Rust's
fixed-precision float rendering. -/
def roundHalfEven (q : ℚ) : ℤ :=
  if Int.fract q < 1 / 2 then ⌊q⌋
  else if 1 / 2 < Int.fract q then ⌊q⌋ + 1
  else if ⌊q⌋ % 2 = 0 then ⌊q⌋ else ⌊q⌋ + 1

/-- Left-pad a digit string with zeros up to width `k`. -/
def padZeros (s : String) (k : ℕ) : String :=
  String.mk (List.replicate (k - s.length) '0') ++ s

/-- Model of `format!("{x:.k$}")`: render `x` in fixed-point decimal with
exactly `k` fractional digits. -/
def formatFixed (x : ℚ) (k : ℕ) : String :=
  let n : ℤ := roundHalfEven (x * 10 ^ k)
  let a : ℕ := n.natAbs
  let sign : String := if x < 0 then "-" else ""
  let intPart : ℕ := a / 10 ^ k
  let fracPart : ℕ := a % 10 ^ k
  if k = 0 then sign ++ toString intPart
  else sign ++ toString intPart ++ "." ++ padZeros (toString fracPart) k

/-- `FormatFloatValue::format_float_unit` for `f64`
(src/traits/format_value.rs). -/
def format_float_unit (x : ℚ) (decimal : ℕ) (unit : Unit) : String :=
  let label := if 2 ≤ x then unit.plural else unit.singular
  formatFixed x decimal ++ " " ++ label

/-- Constant `EPSILON` from src/time.rs (`1e-10`). -/
def EPSILON : ℚ := 1 / 10 ^ 10

/-- `Time::calculate_decimal` (src/time.rs). -/
def Time.calculate_decimal (t : Time) : ℕ :=
  let sec := t.seconds
  if sec < EPSILON then 1
  else if 1 ≤ sec then 3
  else if 1 / 1000 ≤ sec then 6
  else 9

/-- `Time::format_time` (src/time.rs). -/
def Time.format_time (t : Time) : String :=
  let parts : List String := []
  let parts := if 0 < t.days then parts ++ [format_unit t.days Unit.Day] else parts
  let parts :=
    if 0 < t.hours ∨ parts ≠ [] then parts ++ [format_unit t.hours Unit.Hour] else parts
  let parts :=
    if 0 < t.minutes ∨ parts ≠ [] then parts ++ [format_unit t.minutes Unit.Minute] else parts
  let decimal := t.calculate_decimal
  let parts := parts ++ [format_float_unit t.seconds decimal Unit.Second]
  String.intercalate ", " parts

/-- `ExecutionTime` (src/lib.rs): a stopwatch holding the monotonic-clock
reading captured at construction. -/
structure ExecutionTime where
  start_time : ℚ

/-- `ExecutionTime::get_duration` (src/lib.rs): `self.start_time.elapsed()`.
The current monotonic-clock reading is the explicit argument `now`;
`Instant::elapsed` saturates to zero. -/
def ExecutionTime.get_duration (et : ExecutionTime) (now : ℚ) : ℚ :=
  max (now - et.start_time) 0

/-- Mathematical remainder used by the spec formulas: `x mod y` with a
floored quotient. -/
def specMod (x y : ℚ) : ℚ :=
  x - y * ⌊x / y⌋

/-- The spec's `round9`: round to 9 fractional digits, halves away from
zero. -/
def round9Spec (x : ℚ) : ℚ :=
  (rustRound (x * 10 ^ 9) : ℚ) / 10 ^ 9

/- ------------------------------------------------------------------ -/
/- Helper lemmas -/
/- ------------------------------------------------------------------ -/

lemma rustRound_intCast (n : ℤ) : rustRound (n : ℚ) = n := by
  unfold rustRound
  split_ifs with h
  · rw [Int.floor_int_add]
    norm_num
  · rw [show -(n : ℚ) + 1 / 2 = ((-n : ℤ) : ℚ) + 1 / 2 by push_cast; ring,
      Int.floor_int_add]
    norm_num

lemma rustRound_zero : rustRound 0 = 0 := by
  have h := rustRound_intCast 0
  simpa using h

lemma f64Mod_eq_specMod {x y : ℚ} (hx : 0 ≤ x) (hy : 0 < y) :
    f64Mod x y = specMod x y := by
  unfold f64Mod specMod
  rw [if_pos (div_nonneg hx hy.le)]

lemma specMod_eq_fract (x y : ℚ) (hy : y ≠ 0) :
    specMod x y = y * Int.fract (x / y) := by
  unfold specMod
  rw [Int.fract]
  field_simp

lemma specMod_nonneg (x y : ℚ) (hy : 0 < y) : 0 ≤ specMod x y := by
  rw [specMod_eq_fract x y hy.ne']
  exact mul_nonneg hy.le (Int.fract_nonneg _)

lemma specMod_lt (x y : ℚ) (hy : 0 < y) : specMod x y < y := by
  rw [specMod_eq_fract x y hy.ne']
  nlinarith [Int.fract_lt_one (x / y), Int.fract_nonneg (x / y)]

lemma specMod_sub (x y : ℚ) : x = y * ⌊x / y⌋ + specMod x y := by
  unfold specMod
  ring

lemma as_secs_f64_nonneg (d : Duration) : 0 ≤ d.as_secs_f64 := by
  unfold Duration.as_secs_f64
  positivity

lemma grid_as_secs (d : Duration) : ∃ n : ℤ, d.as_secs_f64 * 10 ^ 9 = (n : ℚ) := by
  refine ⟨d.secs * 10 ^ 9 + d.nanos, ?_⟩
  unfold Duration.as_secs_f64
  rw [add_mul, div_mul_cancel₀ _ (by norm_num : (10 : ℚ) ^ 9 ≠ 0)]
  push_cast
  ring

lemma grid_specMod {x y : ℚ} (k : ℤ) (hk : (k : ℚ) = y)
    (h : ∃ n : ℤ, x * 10 ^ 9 = (n : ℚ)) :
    ∃ m : ℤ, specMod x y * 10 ^ 9 = (m : ℚ) := by
  obtain ⟨n, hn⟩ := h
  refine ⟨n - k * ⌊x / y⌋ * 10 ^ 9, ?_⟩
  unfold specMod
  push_cast
  rw [hk]
  linear_combination hn

lemma round_float_grid {x : ℚ} (h : ∃ n : ℤ, x * 10 ^ 9 = (n : ℚ)) :
    round_float x 9 = x := by
  obtain ⟨n, hn⟩ := h
  unfold round_float
  split_ifs with hc
  · rcases hc with hc | hc
    · exact absurd hc (by norm_num)
    · rw [hc]
      simp [rustRound_zero]
  · have h9 : ((9 : ℤ).toNat) = 9 := rfl
    rw [h9, hn, rustRound_intCast, ← hn]
    have hten : (10 : ℚ) ^ 9 ≠ 0 := by norm_num
    field_simp

lemma round_float_nine (x : ℚ) : round_float x 9 = round9Spec x := by
  unfold round_float round9Spec
  split_ifs with hc
  · rcases hc with hc | hc
    · exact absurd hc (by norm_num)
    · rw [hc]
      simp [rustRound_zero]
  · rfl

/-- `get_time` computed through exact mathematical remainders: the `f64`
remainders coincide with floored-division remainders on the nonnegative
inputs at hand, and the 9-digit rounding is the identity because every
intermediate value is an exact multiple of one nanosecond. -/
lemma get_time_eq (d : Duration) :
    d.get_time =
      ⟨(⌊d.as_secs_f64 / 86400⌋).toNat,
       (⌊specMod d.as_secs_f64 86400 / 3600⌋).toNat,
       (⌊specMod (specMod d.as_secs_f64 86400) 3600 / 60⌋).toNat,
       specMod (specMod (specMod d.as_secs_f64 86400) 3600) 60⟩ := by
  have hS := as_secs_f64_nonneg d
  have h1 : f64Mod d.as_secs_f64 86400 = specMod d.as_secs_f64 86400 :=
    f64Mod_eq_specMod hS (by norm_num)
  have hrd : 0 ≤ specMod d.as_secs_f64 86400 := specMod_nonneg _ _ (by norm_num)
  have h2 : f64Mod (specMod d.as_secs_f64 86400) 3600 =
      specMod (specMod d.as_secs_f64 86400) 3600 :=
    f64Mod_eq_specMod hrd (by norm_num)
  have hrh : 0 ≤ specMod (specMod d.as_secs_f64 86400) 3600 :=
    specMod_nonneg _ _ (by norm_num)
  have h3 : f64Mod (specMod (specMod d.as_secs_f64 86400) 3600) 60 =
      specMod (specMod (specMod d.as_secs_f64 86400) 3600) 60 :=
    f64Mod_eq_specMod hrh (by norm_num)
  have hgrid : ∃ n : ℤ,
      specMod (specMod (specMod d.as_secs_f64 86400) 3600) 60 * 10 ^ 9 = (n : ℚ) :=
    grid_specMod 60 (by norm_num)
      (grid_specMod 3600 (by norm_num)
        (grid_specMod 86400 (by norm_num) (grid_as_secs d)))
  have h4 := round_float_grid hgrid
  unfold Duration.get_time
  simp only [SECONDS_IN_DAY, SECONDS_IN_HOUR, SECONDS_IN_MINUTE]
  rw [h1, h2, h3, h4]

/- ------------------------------------------------------------------ -/
/- Claim theorems -/
/- ------------------------------------------------------------------ -/

/-- Claim C1: for every Duration `d` with `S = d.as_secs_f64`, `get_time d`
returns `days = ⌊S / 86400⌋`, `hours = ⌊(S mod 86400) / 3600⌋`,
`minutes = ⌊((S mod 86400) mod 3600) / 60⌋` and
`seconds = round9(((S mod 86400) mod 3600) mod 60)`, where `round9` rounds
to 9 fractional digits half away from zero. -/
theorem get_time_decomposition (d : Duration) :
    ((d.get_time).days : ℤ) = ⌊d.as_secs_f64 / 86400⌋ ∧
    ((d.get_time).hours : ℤ) = ⌊specMod d.as_secs_f64 86400 / 3600⌋ ∧
    ((d.get_time).minutes : ℤ) = ⌊specMod (specMod d.as_secs_f64 86400) 3600 / 60⌋ ∧
    (d.get_time).seconds =
      round9Spec (specMod (specMod (specMod d.as_secs_f64 86400) 3600) 60) := by
  have hS := as_secs_f64_nonneg d
  have hrd := specMod_nonneg d.as_secs_f64 86400 (by norm_num)
  have hrh := specMod_nonneg (specMod d.as_secs_f64 86400) 3600 (by norm_num)
  have hgrid : ∃ n : ℤ,
      specMod (specMod (specMod d.as_secs_f64 86400) 3600) 60 * 10 ^ 9 = (n : ℚ) :=
    grid_specMod 60 (by norm_num)
      (grid_specMod 3600 (by norm_num)
        (grid_specMod 86400 (by norm_num) (grid_as_secs d)))
  rw [get_time_eq]
  refine ⟨?_, ?_, ?_, ?_⟩
  · exact Int.toNat_of_nonneg (Int.floor_nonneg.mpr (div_nonneg hS (by norm_num)))
  · exact Int.toNat_of_nonneg (Int.floor_nonneg.mpr (div_nonneg hrd (by norm_num)))
  · exact Int.toNat_of_nonneg (Int.floor_nonneg.mpr (div_nonneg hrh (by norm_num)))
  · show specMod (specMod (specMod d.as_secs_f64 86400) 3600) 60 =
      round9Spec (specMod (specMod (specMod d.as_secs_f64 86400) 3600) 60)
    rw [← round_float_nine]
    exact (round_float_grid hgrid).symm

/-- Claim C2: for every Duration `d`, `get_time d` satisfies the range
invariants `hours < 24`, `minutes < 60` and `0 ≤ seconds < 60`; in
particular the 9-digit rounding of the seconds field never reaches
`60.0`. -/
theorem get_time_range (d : Duration) :
    (d.get_time).hours < 24 ∧ (d.get_time).minutes < 60 ∧
      0 ≤ (d.get_time).seconds ∧ (d.get_time).seconds < 60 := by
  have hrd := specMod_nonneg d.as_secs_f64 86400 (by norm_num)
  have hrd_lt := specMod_lt d.as_secs_f64 86400 (by norm_num)
  have hrh := specMod_nonneg (specMod d.as_secs_f64 86400) 3600 (by norm_num)
  have hrh_lt := specMod_lt (specMod d.as_secs_f64 86400) 3600 (by norm_num)
  have hr := specMod_nonneg (specMod (specMod d.as_secs_f64 86400) 3600) 60 (by norm_num)
  have hr_lt := specMod_lt (specMod (specMod d.as_secs_f64 86400) 3600) 60 (by norm_num)
  rw [get_time_eq]
  refine ⟨?_, ?_, hr, hr_lt⟩
  · show (⌊specMod d.as_secs_f64 86400 / 3600⌋).toNat < 24
    have h : ⌊specMod d.as_secs_f64 86400 / 3600⌋ < 24 := by
      rw [Int.floor_lt]
      push_cast
      rw [div_lt_iff₀ (by norm_num : (0 : ℚ) < 3600)]
      linarith
    omega
  · show (⌊specMod (specMod d.as_secs_f64 86400) 3600 / 60⌋).toNat < 60
    have h : ⌊specMod (specMod d.as_secs_f64 86400) 3600 / 60⌋ < 60 := by
      rw [Int.floor_lt]
      push_cast
      rw [div_lt_iff₀ (by norm_num : (0 : ℚ) < 60)]
      linarith
    omega

/-- Claim C8: for every Duration `d`, the decomposed fields of `get_time d`
recompose to `S = d.as_secs_f64` within `1e-8` (in the exact model they
recompose exactly). -/
theorem get_time_recompose (d : Duration) :
    |((d.get_time).days : ℚ) * 86400 + ((d.get_time).hours : ℚ) * 3600 +
        ((d.get_time).minutes : ℚ) * 60 + (d.get_time).seconds - d.as_secs_f64| ≤
      1 / 10 ^ 8 := by
  have hS := as_secs_f64_nonneg d
  have hrd := specMod_nonneg d.as_secs_f64 86400 (by norm_num)
  have hrh := specMod_nonneg (specMod d.as_secs_f64 86400) 3600 (by norm_num)
  have e1 := specMod_sub d.as_secs_f64 86400
  have e2 := specMod_sub (specMod d.as_secs_f64 86400) 3600
  have e3 := specMod_sub (specMod (specMod d.as_secs_f64 86400) 3600) 60
  have c1 : (((⌊d.as_secs_f64 / 86400⌋).toNat : ℕ) : ℚ) = (⌊d.as_secs_f64 / 86400⌋ : ℚ) := by
    exact_mod_cast Int.toNat_of_nonneg (Int.floor_nonneg.mpr (div_nonneg hS (by norm_num)))
  have c2 : (((⌊specMod d.as_secs_f64 86400 / 3600⌋).toNat : ℕ) : ℚ) =
      (⌊specMod d.as_secs_f64 86400 / 3600⌋ : ℚ) := by
    exact_mod_cast Int.toNat_of_nonneg (Int.floor_nonneg.mpr (div_nonneg hrd (by norm_num)))
  have c3 : (((⌊specMod (specMod d.as_secs_f64 86400) 3600 / 60⌋).toNat : ℕ) : ℚ) =
      (⌊specMod (specMod d.as_secs_f64 86400) 3600 / 60⌋ : ℚ) := by
    exact_mod_cast Int.toNat_of_nonneg (Int.floor_nonneg.mpr (div_nonneg hrh (by norm_num)))
  rw [get_time_eq]
  show |(((⌊d.as_secs_f64 / 86400⌋).toNat : ℕ) : ℚ) * 86400 +
      (((⌊specMod d.as_secs_f64 86400 / 3600⌋).toNat : ℕ) : ℚ) * 3600 +
      (((⌊specMod (specMod d.as_secs_f64 86400) 3600 / 60⌋).toNat : ℕ) : ℚ) * 60 +
      specMod (specMod (specMod d.as_secs_f64 86400) 3600) 60 - d.as_secs_f64| ≤ 1 / 10 ^ 8
  rw [c1, c2, c3, abs_le]
  constructor <;> linarith

/-- Claim C3: `format_time` builds its parts left-to-right with the sticky
rule — days appears iff `days > 0`; hours appears iff `hours > 0` or a prior
part was appended; minutes appears iff `minutes > 0` or a prior part was
appended; seconds always appears — and the parts are joined by a comma
followed by a single space. -/
theorem format_time_sticky (t : Time) :
    t.format_time =
      String.intercalate ", "
        ((if 0 < t.days then [format_unit t.days Unit.Day] else []) ++
          (if 0 < t.hours ∨ 0 < t.days then [format_unit t.hours Unit.Hour] else []) ++
          (if 0 < t.minutes ∨ 0 < t.hours ∨ 0 < t.days then
              [format_unit t.minutes Unit.Minute]
            else []) ++
          [format_float_unit t.seconds t.calculate_decimal Unit.Second]) := by
  simp only [Time.format_time]
  by_cases hd : 0 < t.days <;> by_cases hh : 0 < t.hours <;>
    by_cases hm : 0 < t.minutes <;> simp [hd, hh, hm]

/-- Claim C4: the number of fractional digits chosen by `calculate_decimal`
is 1 when `seconds < 1e-10`, 3 when `seconds ≥ 1.0`, 6 when
`0.001 ≤ seconds < 1.0`, and 9 when `1e-10 ≤ seconds < 0.001`. -/
theorem calculate_decimal_policy (t : Time) :
    (t.seconds < 1 / 10 ^ 10 → t.calculate_decimal = 1) ∧
    (1 ≤ t.seconds → t.calculate_decimal = 3) ∧
    (1 / 1000 ≤ t.seconds → t.seconds < 1 → t.calculate_decimal = 6) ∧
    (1 / 10 ^ 10 ≤ t.seconds → t.seconds < 1 / 1000 → t.calculate_decimal = 9) := by
  simp only [Time.calculate_decimal, EPSILON]
  split_ifs with h1 h2 h3 <;>
    refine ⟨fun h => ?_, fun h => ?_, fun h h' => ?_, fun h h' => ?_⟩ <;>
    first
      | rfl
      | (exfalso; linarith)

/-- Witness for claim C4 at concrete seconds values in each of the four
ranges. -/
theorem calculate_decimal_policy_witness :
    Time.calculate_decimal ⟨0, 0, 0, 0⟩ = 1 ∧
    Time.calculate_decimal ⟨0, 0, 0, 5⟩ = 3 ∧
    Time.calculate_decimal ⟨0, 0, 0, 1 / 100⟩ = 6 ∧
    Time.calculate_decimal ⟨0, 0, 0, 1 / 10 ^ 6⟩ = 9 :=
  ⟨(calculate_decimal_policy ⟨0, 0, 0, 0⟩).1 (by norm_num),
   (calculate_decimal_policy ⟨0, 0, 0, 5⟩).2.1 (by norm_num),
   (calculate_decimal_policy ⟨0, 0, 0, 1 / 100⟩).2.2.1 (by norm_num) (by norm_num),
   (calculate_decimal_policy ⟨0, 0, 0, 1 / 10 ^ 6⟩).2.2.2 (by norm_num) (by norm_num)⟩

/-- Claim C5: for nonnegative `x`, the float formatter returns
`"{x with k fractional digits} {label}"`, the label being the plural form
iff `x ≥ 2.0` and the singular form otherwise. -/
theorem format_float_unit_plural_threshold (x : ℚ) (k : ℕ) (u : Unit) (h : 0 ≤ x) :
    (2 ≤ x → format_float_unit x k u = formatFixed x k ++ " " ++ u.plural) ∧
    (x < 2 → format_float_unit x k u = formatFixed x k ++ " " ++ u.singular) := by
  simp only [format_float_unit]
  constructor <;> intro hx
  · rw [if_pos hx]
  · rw [if_neg (not_le.mpr hx)]

/-- Witness for claim C5: `2.0` itself selects plural and `0` selects
singular. -/
theorem format_float_unit_plural_threshold_witness :
    format_float_unit 2 0 Unit.Hour = formatFixed 2 0 ++ " " ++ Unit.plural Unit.Hour ∧
    format_float_unit 0 1 Unit.Second =
      formatFixed 0 1 ++ " " ++ Unit.singular Unit.Second :=
  ⟨(format_float_unit_plural_threshold 2 0 Unit.Hour (by norm_num)).1 (by norm_num),
   (format_float_unit_plural_threshold 0 1 Unit.Second (by norm_num)).2 (by norm_num)⟩

/-- Claim C6: the integer formatter returns `"{n} {label}"`, the label being
the plural form iff `n ≥ 2` and the singular form otherwise; `0` and `1`
both select the singular label. -/
theorem format_unit_plural_threshold (n : ℕ) (u : Unit) :
    (2 ≤ n → format_unit n u = toString n ++ " " ++ u.plural) ∧
    (n < 2 → format_unit n u = toString n ++ " " ++ u.singular) := by
  simp only [format_unit]
  constructor <;> intro hn
  · rw [if_pos hn]
  · rw [if_neg (by omega)]

/-- Witness for claim C6 at `n = 2` (plural) and `n = 1` (singular). -/
theorem format_unit_plural_threshold_witness :
    format_unit 2 Unit.Day = toString 2 ++ " " ++ Unit.plural Unit.Day ∧
    format_unit 1 Unit.Day = toString 1 ++ " " ++ Unit.singular Unit.Day :=
  ⟨(format_unit_plural_threshold 2 Unit.Day).1 (by norm_num),
   (format_unit_plural_threshold 1 Unit.Day).2 (by norm_num)⟩

/-- Claim C7: zero is a fixed point — decomposing the zero Duration yields
the zero Time, and formatting the zero Time yields exactly
`"0.0 second"`. -/
theorem zero_fixed :
    (Duration.mk 0 0).get_time = Time.mk 0 0 0 0 ∧
    Time.format_time (Time.mk 0 0 0 0) = "0.0 second" := by
  have h0 : (Duration.mk 0 0).as_secs_f64 = 0 := by
    simp [Duration.as_secs_f64]
  constructor
  · rw [get_time_eq, h0]
    simp [specMod]
  · have hdec : Time.calculate_decimal (Time.mk 0 0 0 0) = 1 := by
      simp only [Time.calculate_decimal, EPSILON]
      rw [if_pos (by norm_num)]
    have hfx : formatFixed 0 1 = "0.0" := by
      simp only [formatFixed, roundHalfEven]
      norm_num
      decide
    have hff : format_float_unit 0 1 Unit.Second = "0.0 second" := by
      simp only [format_float_unit]
      rw [if_neg (by norm_num : ¬(2 : ℚ) ≤ 0), hfx]
      rfl
    simp only [Time.format_time]
    simp only [hdec, hff]
    simp
    decide

/-- Claim C9: two consecutive reads of the elapsed duration on the same
stopwatch are monotonically non-decreasing, the monotonic clock being
modelled by its two successive readings `now1 ≤ now2`. -/
theorem get_duration_monotone (et : ExecutionTime) (now1 now2 : ℚ)
    (h : now1 ≤ now2) : et.get_duration now1 ≤ et.get_duration now2 := by
  unfold ExecutionTime.get_duration
  exact max_le_max (by linarith) le_rfl

/-- Witness for claim C9 at a stopwatch started at clock reading 0 and read
at readings 1 and 2. -/
theorem get_duration_monotone_witness :
    ExecutionTime.get_duration ⟨0⟩ 1 ≤ ExecutionTime.get_duration ⟨0⟩ 2 :=
  get_duration_monotone ⟨0⟩ 1 2 (by norm_num)

/-- Claim C10: `round_float` with a decimal count `≤ 0` returns
`self.round()` (half away from zero); input `0.0` returns `0.0` for every
decimal count; otherwise it returns
`(x * 10^decimal).round() / 10^decimal`. -/
theorem round_float_spec (x : ℚ) (decimal : ℤ) :
    (decimal ≤ 0 → round_float x decimal = (rustRound x : ℚ)) ∧
    (x = 0 → round_float x decimal = 0) ∧
    (0 < decimal → x ≠ 0 →
      round_float x decimal =
        (rustRound (x * 10 ^ decimal.toNat) : ℚ) / 10 ^ decimal.toNat) := by
  refine ⟨fun h => ?_, fun h => ?_, fun h1 h2 => ?_⟩
  · unfold round_float
    rw [if_pos (Or.inl h)]
  · unfold round_float
    rw [if_pos (Or.inr h), h]
    simp [rustRound_zero]
  · unfold round_float
    rw [if_neg]
    push_neg
    exact ⟨by omega, h2⟩

/-- Witness for claim C10: a nonpositive decimal count, a zero input, and
the general branch, each at concrete inputs. -/
theorem round_float_spec_witness :
    round_float (7 / 2) 0 = (rustRound (7 / 2) : ℚ) ∧
    round_float 0 5 = 0 ∧
    round_float (1 / 3) 2 =
      (rustRound ((1 / 3) * 10 ^ (2 : ℤ).toNat) : ℚ) / 10 ^ (2 : ℤ).toNat :=
  ⟨(round_float_spec (7 / 2) 0).1 (by norm_num),
   (round_float_spec 0 5).2.1 rfl,
   (round_float_spec (1 / 3) 2).2.2 (by norm_num) (by norm_num)⟩

end ExecTime
